import Mathlib

/-!
Verification of the extraction / validation / filtering / email-discovery
pipeline of the google-maps-lead-extractor repository.

The pure computational core of the JavaScript sources
(`src/utils/validation.js`, the listing walker of the scraper module, the
hours aria-label parser, and the email finder) is embedded shallowly below.
JavaScript strings are modeled as Lean `String` values (operated on as
`List Char`), JavaScript numbers that arise in this code are decimal
literals parsed from text and are modeled exactly by an integer mantissa
over a power-of-ten denominator (`Dec`), and the dynamically typed record
that flows through `validateBusinessData` is modeled by `BizData`, whose
rating and review-count fields carry a JavaScript-value type (`JVal`) so
that re-validation of an already validated record is expressible exactly
as in the source.  Code that can throw a `TypeError` is modeled in
`Except Unit`.  Browser / DOM interaction is abstracted at the function
boundaries the claims name: a listing feed is a time-indexed list of
cards, and the web visited by the email finder is a pair of functions
(url to fetched HTML, url to rendered anchors).
-/

/-- Whitespace recognizer matching the JavaScript `\s` class on the ASCII
range (space, tab, line feed, carriage return, vertical tab, form feed). -/
def isJsWs (c : Char) : Bool :=
  c = ' ' || c = '\t' || c = '\n' || c = '\r' || c = '\x0b' || c = '\x0c'

/-- Drop leading JavaScript whitespace from a character list. -/
def dropWs (l : List Char) : List Char := l.dropWhile isJsWs

/-- The `String.prototype.trim` of JavaScript on a character list. -/
def trimChars (l : List Char) : List Char :=
  ((dropWs l.reverse).reverse).dropWhile isJsWs

/-- Helper for `collapseWs`: the flag records whether the previous
character was whitespace (in which case further whitespace is dropped). -/
def collapseWsGo : Bool → List Char → List Char
  | _, [] => []
  | inWs, c :: rest =>
    if isJsWs c then
      if inWs then collapseWsGo true rest else ' ' :: collapseWsGo true rest
    else c :: collapseWsGo false rest

/-- Collapse every run of whitespace to a single space, as in
`replace(/\s+/g, ' ')`. -/
def collapseWs (l : List Char) : List Char := collapseWsGo false l

/-- JavaScript `trim` on strings. -/
def jsTrim (s : String) : String := ⟨trimChars s.data⟩

/-- ASCII lowercase of a character list (JavaScript `toLowerCase` on the
inputs this code handles). -/
def lowerChars (l : List Char) : List Char := l.map Char.toLower

/-- JavaScript `toLowerCase`. -/
def jsLower (s : String) : String := ⟨lowerChars s.data⟩

/-- Prefix test on character lists. -/
def isPref : List Char → List Char → Bool
  | [], _ => true
  | _ :: _, [] => false
  | p :: ps, c :: cs => p = c && isPref ps cs

/-- Case-insensitive prefix test on character lists. -/
def isPrefCI (p l : List Char) : Bool := isPref (lowerChars p) (lowerChars l)

/-- Substring containment of `pat` in `l` (JavaScript `String.includes`). -/
def listIncludes (pat : List Char) : List Char → Bool
  | [] => isPref pat []
  | c :: cs => isPref pat (c :: cs) || listIncludes pat cs

/-- JavaScript `String.includes`. -/
def strIncludes (s pat : String) : Bool := listIncludes pat.data s.data

/-- Membership test of a character in a string (JavaScript
`String.includes` with a one-character argument). -/
def strHasChar (s : String) (c : Char) : Bool := s.data.contains c

/-- Split a character list at every occurrence of the character `sep`
(JavaScript `split` with a one-character separator). -/
def splitChar (sep : Char) : List Char → List (List Char)
  | [] => [[]]
  | c :: rest =>
    let r := splitChar sep rest
    if c = sep then [] :: r
    else
      match r with
      | [] => [[c]]
      | h :: t => (c :: h) :: t

/-- Helper for `dedupFirst`: `seen` collects the elements kept so far. -/
def dedupFirstGo : List String → List String → List String
  | _, [] => []
  | seen, x :: xs =>
    if seen.contains x then dedupFirstGo seen xs
    else x :: dedupFirstGo (x :: seen) xs

/-- Keep only the first occurrence of every element, preserving order
(the JavaScript `[...new Set(list)]` idiom). -/
def dedupFirst (l : List String) : List String := dedupFirstGo [] l

/-- Maximal run of decimal digits at the head of a character list,
together with the rest. -/
def digitRun : List Char → List Char × List Char
  | [] => ([], [])
  | c :: rest =>
    if c.isDigit then
      let (run, r) := digitRun rest
      (c :: run, r)
    else ([], c :: rest)

/-- Numeric value of a list of decimal digits. -/
def digitsToNat : List Char → Nat
  | [] => 0
  | c :: rest => digitsToNat rest + c.toNat.sub 48 * 10 ^ rest.length

/-- Exact decimal numbers: an integer mantissa over a power-of-ten
denominator.  The JavaScript numbers occurring in this pipeline are
decimal literals parsed out of text, which this type represents exactly. -/
structure Dec where
  num : Int
  den : Nat
deriving DecidableEq

/-- Embed a natural number. -/
def Dec.ofNat (n : Nat) : Dec := ⟨n, 1⟩

/-- Strict order on decimals by cross multiplication. -/
def Dec.blt (a b : Dec) : Bool := a.num * (b.den : Int) < b.num * (a.den : Int)

/-- Non-strict order on decimals by cross multiplication. -/
def Dec.ble (a b : Dec) : Bool := a.num * (b.den : Int) ≤ b.num * (a.den : Int)

/-- Comparison of a decimal against an integer constant. -/
def Dec.leInt (a : Dec) (n : Int) : Bool := a.num ≤ n * (a.den : Int)

/-- Comparison of an integer constant against a decimal. -/
def Dec.geInt (a : Dec) (n : Int) : Bool := n * (a.den : Int) ≤ a.num

/-- JavaScript falsiness of a number: zero is falsy. -/
def Dec.isZero (a : Dec) : Bool := a.num = 0

/-- Build the value of `intPart.fracPart` from two digit lists. -/
def decOfParts (intPart fracPart : List Char) : Dec :=
  ⟨(digitsToNat intPart * 10 ^ fracPart.length + digitsToNat fracPart : Nat),
   10 ^ fracPart.length⟩

/-- Negate a decimal. -/
def Dec.neg (a : Dec) : Dec := ⟨-a.num, a.den⟩

/-- The empty string, named so that literals never directly follow an
identifier. -/
def emptyStr : String := ""

/-- JavaScript `x || null` on an optional string: the empty string is
falsy and collapses to null. -/
def jsOr (o : Option String) : Option String :=
  match o with
  | none => none
  | some s => if s == emptyStr then none else some s

/-- Truthiness of an optional string (null and the empty string are
falsy). -/
def strTruthy (o : Option String) : Bool :=
  match o with
  | none => false
  | some s => !(s == emptyStr)

/-- A JavaScript value as it appears in the rating and review-count
fields of the records flowing through this pipeline: null, a string
(raw extraction output), or a number (validation output). -/
inductive JVal where
  | jnull : JVal
  | jstr : String → JVal
  | jnum : Dec → JVal
deriving DecidableEq

/-- The email blacklist configuration: domain substrings and patterns.
The config file `email-blacklist.json` is data loaded at run time, so the
blacklist is a parameter here; a pattern (a regular expression in the
source) is abstracted as a predicate on strings. -/
structure Blacklist where
  domains : List String
  patterns : List (String → Bool)

/-- Embeds `cleanString` of `src/utils/validation.js`: null or non-string
returns null; otherwise trim, collapse internal whitespace, and collapse
an empty result to null. -/
def cleanString (str : Option String) : Option String :=
  match str with
  | none => none
  | some s =>
    if s == emptyStr then none
    else
      let t : String := ⟨collapseWs (trimChars s.data)⟩
      if t == emptyStr then none else some t

/-- Embeds `cleanPhone`: strip everything but digits and the plus sign,
then prefix a bare 10-digit number with a US country code. -/
def cleanPhone (phone : Option String) : Option String :=
  match phone with
  | none => none
  | some s =>
    if s == emptyStr then none
    else
      let cleaned := s.data.filter (fun c => c.isDigit || c = '+')
      let cleaned :=
        if !(isPref ['+'] cleaned) && cleaned.length = 10 then
          '+' :: '1' :: cleaned
        else cleaned
      if cleaned.isEmpty then none else some ⟨cleaned⟩

/-- Local-part characters of the email regex `[a-zA-Z0-9._%+-]`. -/
def isLocalChar (c : Char) : Bool :=
  c.isAlpha || c.isDigit || c = '.' || c = '_' || c = '%' || c = '+' || c = '-'

/-- Domain characters of the email regex `[a-zA-Z0-9.-]`. -/
def isDomChar (c : Char) : Bool :=
  c.isAlpha || c.isDigit || c = '.' || c = '-'

/-- Test of the anchored email syntax regex
`^[a-zA-Z0-9._%+-]+@[a-zA-Z0-9.-]+\.[a-zA-Z]{2,}$`: the string splits as
a nonempty local part, an at sign, and a domain that is all domain
characters and ends in a dot followed by at least two letters. -/
def emailRegexTest (s : String) : Bool :=
  let l := s.data
  let localPart := l.takeWhile (fun c => !(c = '@'))
  match l.drop localPart.length with
  | '@' :: dom =>
    !localPart.isEmpty && localPart.all isLocalChar && dom.all isDomChar &&
      (List.range dom.length).any (fun j =>
        decide (1 ≤ j) &&
          (match dom.drop j with
           | '.' :: t => t.all Char.isAlpha && decide (2 ≤ t.length)
           | _ => false))
  | _ => false

/-- Embeds `validateEmail`: trim and lowercase, reject blacklisted domain
substrings, reject blacklisted patterns, then require the syntax regex. -/
def validateEmail (bl : Blacklist) (email : String) : Option String :=
  if email == emptyStr then none
  else
    let trimmed := jsLower (jsTrim email)
    if bl.domains.any (fun domain => strIncludes trimmed domain) then none
    else if bl.patterns.any (fun pattern => pattern trimmed) then none
    else if emailRegexTest trimmed then some trimmed else none

/-- Scheme literal for URL validation. -/
def httpPrefix : String := "http://"

/-- Scheme literal for URL validation. -/
def httpsPrefix : String := "https://"

/-- Embeds `validateUrl`.  The WHATWG `URL` constructor is modeled
shallowly: a string parses when it carries an explicit http or https
scheme (case-insensitive) followed by a nonempty remainder, and `href`
normalization is not modeled (the string is returned unchanged); no claim
below depends on href rewriting. -/
def validateUrl (url : Option String) : Option String :=
  match url with
  | none => none
  | some s =>
    if s == emptyStr then none
    else if (isPrefCI httpPrefix.data s.data && decide (httpPrefix.length < s.length)) ||
            (isPrefCI httpsPrefix.data s.data && decide (httpsPrefix.length < s.length)) then
      some s
    else none

/-- First match of the rating regex `(\d+\.?\d*)` in a character list,
as an exact decimal. -/
def ratingMatch : List Char → Option Dec
  | [] => none
  | c :: rest =>
    if c.isDigit then
      let (intRun, r1) := digitRun (c :: rest)
      match r1 with
      | '.' :: r2 => some (decOfParts intRun (digitRun r2).1)
      | _ => some (decOfParts intRun [])
    else ratingMatch rest

/-- Embeds `parseRating` on its string input: the first floating-point
token, accepted only within the range zero to five. -/
def parseRating (ratingText : Option String) : Option Dec :=
  match ratingText with
  | none => none
  | some s =>
    if s == emptyStr then none
    else
      match ratingMatch s.data with
      | some rating =>
        if rating.geInt 0 && rating.leInt 5 then some rating else none
      | none => none

/-- First match of the review-count regex `([\d,]+)` in a character
list. -/
def reviewMatch : List Char → Option (List Char)
  | [] => none
  | c :: rest =>
    if c.isDigit || c = ',' then
      some ((c :: rest).takeWhile (fun d => d.isDigit || d = ','))
    else reviewMatch rest

/-- Embeds `parseReviewCount` on its string input: first digit-and-comma
group, commas stripped, zero on absence or a parse failure. -/
def parseReviewCount (reviewText : Option String) : Nat :=
  match reviewText with
  | none => 0
  | some s =>
    if s == emptyStr then 0
    else
      match reviewMatch s.data with
      | some run =>
        let ds := run.filter Char.isDigit
        if ds.isEmpty then 0 else digitsToNat ds
      | none => 0

/-- Parse `-?\d+\.\d+` at the head of a character list (both digit groups
mandatory, as in the coordinate regexes). -/
def signedDec (l : List Char) : Option (Dec × List Char) :=
  let (neg, l1) :=
    match l with
    | '-' :: rest => (true, rest)
    | _ => (false, l)
  let (intRun, r1) := digitRun l1
  if intRun.isEmpty then none
  else
    match r1 with
    | '.' :: r2 =>
      let (fracRun, r3) := digitRun r2
      if fracRun.isEmpty then none
      else
        let d := decOfParts intRun fracRun
        some (if neg then d.neg else d, r3)
    | _ => none

/-- Generic leftmost-match search: try the matcher at every position from
the left, first success wins (regex search semantics). -/
def scanFirst (f : List Char → Option α) : List Char → Option α
  | [] => f []
  | c :: rest =>
    match f (c :: rest) with
    | some v => some v
    | none => scanFirst f rest

/-- Anchored attempt of the `@(-?\d+\.\d+),(-?\d+\.\d+)` pattern. -/
def atMatchAt (l : List Char) : Option (Dec × Dec) :=
  match l with
  | '@' :: r0 =>
    match signedDec r0 with
    | some (a, r1) =>
      match r1 with
      | ',' :: r2 =>
        match signedDec r2 with
        | some (b, _) => some (a, b)
        | none => none
      | _ => none
    | none => none
  | _ => none

/-- Anchored attempt of the `!3d(-?\d+\.\d+)!4d(-?\d+\.\d+)` pattern. -/
def d34MatchAt (l : List Char) : Option (Dec × Dec) :=
  match l with
  | '!' :: '3' :: 'd' :: r0 =>
    match signedDec r0 with
    | some (a, r1) =>
      match r1 with
      | '!' :: '4' :: 'd' :: r2 =>
        match signedDec r2 with
        | some (b, _) => some (a, b)
        | none => none
      | _ => none
    | none => none
  | _ => none

/-- Latitude range check of `parseCoordinates`. -/
def latOK (a : Dec) : Bool := a.geInt (-90) && a.leInt 90

/-- Longitude range check of `parseCoordinates`. -/
def lngOK (b : Dec) : Bool := b.geInt (-180) && b.leInt 180

/-- Embeds `parseCoordinates`: try the at-sign pattern first and accept
it when within geographic bounds; otherwise (no at-sign match, or an
out-of-bounds one) try the `!3d!4d` pattern under the same bounds;
otherwise both null. -/
def parseCoordinates (url : Option String) : Option Dec × Option Dec :=
  match url with
  | none => (none, none)
  | some u =>
    if u == emptyStr then (none, none)
    else
      let try3d :=
        match scanFirst d34MatchAt u.data with
        | some (a, b) =>
          if latOK a && lngOK b then (some a, some b) else (none, none)
        | none => (none, none)
      match scanFirst atMatchAt u.data with
      | some (a, b) =>
        if latOK a && lngOK b then (some a, some b) else try3d
      | none => try3d

/-- Default country literal of `parseAddress`. -/
def unitedStates : String := "United States"

/-- Parsed address components. -/
structure AddrParts where
  street : Option String
  city : Option String
  state : Option String
  zip : Option String
  country : Option String
deriving DecidableEq

/-- Anchored attempt of the state-and-zip regex
`([A-Z]{2})\s*(\d{5}(-\d{4})?)?` at the head of a character list: two
uppercase letters, then optionally five digits and optionally a dash and
four more. -/
def stateZipAt (l : List Char) : Option (String × Option String) :=
  match l with
  | a :: b :: rest =>
    if a.isUpper && b.isUpper then
      let (d, r2) := digitRun (dropWs rest)
      if decide (5 ≤ d.length) then
        let zip5 := d.take 5
        if d.length = 5 then
          match r2 with
          | '-' :: r3 =>
            let d4 := (digitRun r3).1
            if decide (4 ≤ d4.length) then
              some (⟨[a, b]⟩, some ⟨zip5 ++ '-' :: d4.take 4⟩)
            else some (⟨[a, b]⟩, some ⟨zip5⟩)
          | _ => some (⟨[a, b]⟩, some ⟨zip5⟩)
        else some (⟨[a, b]⟩, some ⟨zip5⟩)
      else some (⟨[a, b]⟩, none)
    else none
  | _ => none

/-- Embeds `parseAddress`: split on commas and trim the parts; the first
part is the street, the second the city, the third is scanned for a
state-and-zip pattern (else taken verbatim as the state), the last part
(when at least four exist) is the country; every component is cleaned,
and a missing country defaults to the configured country string — except
on a falsy input, which returns all-null components. -/
def parseAddress (fullAddress : Option String) : AddrParts :=
  match fullAddress with
  | none => ⟨none, none, none, none, none⟩
  | some s =>
    if s == emptyStr then ⟨none, none, none, none, none⟩
    else
      let parts : List String := (splitChar ',' s.data).map (fun p => ⟨trimChars p⟩)
      let street := if 2 ≤ parts.length then jsOr (parts.get? 0) else none
      let city := if 2 ≤ parts.length then jsOr (parts.get? 1) else none
      let stateZip :=
        if 3 ≤ parts.length then
          match scanFirst stateZipAt ((parts.get? 2).getD emptyStr).data with
          | some (st, zp) => (some st, zp)
          | none => (jsOr (parts.get? 2), none)
        else (none, none)
      let country :=
        if 4 ≤ parts.length then jsOr (parts.get? (parts.length - 1)) else none
      ⟨cleanString street, cleanString city, cleanString stateZip.1,
       cleanString stateZip.2,
       match cleanString country with
       | none => some unitedStates
       | c => c⟩

/-- The seven canonical weekday names of `validateBusinessHours`. -/
def validDays : List String :=
  [⟨['M','o','n','d','a','y']⟩, ⟨['T','u','e','s','d','a','y']⟩,
   ⟨['W','e','d','n','e','s','d','a','y']⟩, ⟨['T','h','u','r','s','d','a','y']⟩,
   ⟨['F','r','i','d','a','y']⟩, ⟨['S','a','t','u','r','d','a','y']⟩,
   ⟨['S','u','n','d','a','y']⟩]

/-- Embeds `validateBusinessHours`: a non-object or empty object returns
null; entries keep only canonical weekday keys with nonempty trimmed
string values; an empty survivor set collapses to null.  A JavaScript
object is modeled as an association list in insertion order. -/
def validateBusinessHours (hours : Option (List (String × String))) :
    Option (List (String × String)) :=
  match hours with
  | none => none
  | some entries =>
    if entries.isEmpty then none
    else
      let validated := entries.filterMap (fun e =>
        if validDays.contains e.1 && !(jsTrim e.2 == emptyStr) then
          some (e.1, jsTrim e.2)
        else none)
      if validated.isEmpty then none else some validated

/-- Behavior of `parseRating` on an arbitrary JavaScript value: null (and
the falsy number zero) yield null, a string is parsed, and a nonzero
number is truthy yet has no `match` method, so the call throws a
`TypeError` (modeled as `Except.error`). -/
def parseRatingJ : JVal → Except Unit (Option Dec)
  | .jnull => .ok none
  | .jstr s => .ok (parseRating (some s))
  | .jnum q => if q.isZero then .ok none else .error ()

/-- Behavior of `parseReviewCount` on an arbitrary JavaScript value,
analogous to `parseRatingJ`. -/
def parseReviewCountJ : JVal → Except Unit Nat
  | .jnull => .ok 0
  | .jstr s => .ok (parseReviewCount (some s))
  | .jnum q => if q.isZero then .ok 0 else .error ()

/-- The business record flowing through the pipeline.  One dynamic record
type serves both raw extraction output and validated output, exactly as in
the JavaScript: fields absent on the raw side are simply null, and the
rating and review-count fields carry whole JavaScript values. -/
structure BizData where
  businessName : Option String
  address : Option String
  street : Option String
  city : Option String
  state : Option String
  zip : Option String
  country : Option String
  phone : Option String
  website : Option String
  rating : JVal
  reviewCount : JVal
  category : Option String
  priceLevel : Option String
  priceRange : Option String
  googleMapsUrl : Option String
  latitude : Option Dec
  longitude : Option Dec
  businessHours : Option (List (String × String))
  emails : Option (List String)
  emailSource : Option String
deriving DecidableEq

/-- The all-null record (every field absent). -/
def emptyBiz : BizData :=
  ⟨none, none, none, none, none, none, none, none, none, .jnull, .jnull,
   none, none, none, none, none, none, none, none, none⟩

/-- Default email source literal. -/
def notFoundSrc : String := "not_found"

/-- Email source literal for the detail-view mailto side channel. -/
def googleProfileSrc : String := "google_profile"

/-- Email source literal for the website crawl. -/
def websiteSrc : String := "website"

/-- Embeds `validateBusinessData`: parse coordinates and address
components, validate each email against the blacklist, and rebuild the
record with every field normalized.  `parseRating` and
`parseReviewCount` throw a `TypeError` on truthy non-string input (the
rating field is evaluated first in the object literal), which propagates
out of the function; everything else is total. -/
def validateBusinessData (bl : Blacklist) (rawData : BizData) :
    Except Unit BizData :=
  let coords := parseCoordinates rawData.googleMapsUrl
  let addressComponents := parseAddress rawData.address
  let validatedEmails :=
    match rawData.emails with
    | some es => es.filterMap (validateEmail bl)
    | none => []
  do
    let rating ← parseRatingJ rawData.rating
    let reviewCount ← parseReviewCountJ rawData.reviewCount
    .ok { businessName := cleanString rawData.businessName
          address := cleanString rawData.address
          street := addressComponents.street
          city := addressComponents.city
          state := addressComponents.state
          zip := addressComponents.zip
          country := addressComponents.country
          phone := cleanPhone rawData.phone
          website := validateUrl rawData.website
          rating :=
            match rating with
            | some q => .jnum q
            | none => .jnull
          reviewCount := .jnum (Dec.ofNat reviewCount)
          category := cleanString rawData.category
          priceLevel := jsOr rawData.priceLevel
          priceRange := jsOr rawData.priceRange
          googleMapsUrl := validateUrl rawData.googleMapsUrl
          latitude := coords.1
          longitude := coords.2
          businessHours := validateBusinessHours rawData.businessHours
          emails := some validatedEmails
          emailSource :=
            match jsOr rawData.emailSource with
            | none => some notFoundSrc
            | src => src }

/-- JavaScript truthiness of a value. -/
def jvalTruthy : JVal → Bool
  | .jnull => false
  | .jstr s => !(s == emptyStr)
  | .jnum q => !q.isZero

/-- JavaScript numeric coercion of a string (`ToNumber`), restricted to
optionally signed decimal literals with surrounding whitespace; `none`
stands for NaN.  Within this pipeline the branch is unreachable: every
value compared numerically by the filter is already a number or null. -/
def jsToNum (s : String) : Option Dec :=
  let t := trimChars s.data
  if t.isEmpty then some (Dec.ofNat 0)
  else
    let (neg, l1) :=
      match t with
      | '-' :: r => (true, r)
      | '+' :: r => (false, r)
      | _ => (false, t)
    let (i, r1) := digitRun l1
    match r1 with
    | [] =>
      if i.isEmpty then none
      else some (if neg then (decOfParts i []).neg else decOfParts i [])
    | '.' :: r2 =>
      let (f, r3) := digitRun r2
      if r3.isEmpty && !(i.isEmpty && f.isEmpty) then
        some (if neg then (decOfParts i f).neg else decOfParts i f)
      else none
    | _ => none

/-- The JavaScript comparison `v < m` for a record field against a
numeric filter bound (NaN comparisons are false). -/
def jvalLtDec (v : JVal) (m : Dec) : Bool :=
  match v with
  | .jnum q => q.blt m
  | .jstr s =>
    match jsToNum s with
    | some q => q.blt m
    | none => false
  | .jnull => false

/-- The comparison `v < n` against a natural-number filter bound. -/
def jvalLtNat (v : JVal) (n : Nat) : Bool := jvalLtDec v (Dec.ofNat n)

/-- The filter configuration destructured at the top of
`meetsFilterCriteria`, with the source defaults standing for absent
entries. -/
structure Filters where
  minRating : Dec
  minReviews : Nat
  filterByPriceLevel : List String
  minPrice : Nat
  maxPrice : Nat

/-- The no-op filter configuration (all source defaults). -/
def noFilters : Filters := ⟨Dec.ofNat 0, 0, [], 0, 0⟩

/-- Helper for `digitGroups`: fold over the characters keeping the
digits of the current run (reversed) in the accumulator. -/
def digitGroupsGo : Option (List Char) → List Char → List (List Char)
  | cur, [] =>
    (match cur with
     | some run => [run.reverse]
     | none => [])
  | cur, c :: rest =>
    if c.isDigit then digitGroupsGo (some (c :: cur.getD [])) rest
    else
      match cur with
      | some run => run.reverse :: digitGroupsGo none rest
      | none => digitGroupsGo none rest

/-- All matches of the global regex `/\d+/g`: the maximal digit runs of
the string, each parsed as an integer (`parseInt`). -/
def digitGroups (s : String) : List Nat :=
  (digitGroupsGo none s.data).map digitsToNat

/-- The price-range block of `meetsFilterCriteria`: only applied when a
price filter is active and the business carries a price range; the first
digit group is the business minimum, a trailing plus sign or a two-number
range is excluded only when that minimum exceeds the maximum-price
bound. -/
def priceRangeCheck (business : BizData) (filters : Filters) : Bool :=
  if (decide (0 < filters.minPrice) || decide (0 < filters.maxPrice)) &&
      strTruthy business.priceRange then
    match digitGroups (business.priceRange.getD emptyStr) with
    | [] => true
    | n :: rest =>
      if decide (0 < filters.minPrice) && decide (n < filters.minPrice) then false
      else if decide (0 < filters.maxPrice) then
        if strHasChar (business.priceRange.getD emptyStr) '+' then
          if decide (filters.maxPrice < n) then false else true
        else if rest.length = 1 then
          if decide (filters.maxPrice < n) then false else true
        else true
      else true
  else true

/-- The price-level block of `meetsFilterCriteria`, chained into the
price-range block. -/
def priceLevelCheck (business : BizData) (filters : Filters) : Bool :=
  if !filters.filterByPriceLevel.isEmpty && strTruthy business.priceLevel then
    if !(filters.filterByPriceLevel.contains (business.priceLevel.getD emptyStr)) then
      false
    else priceRangeCheck business filters
  else priceRangeCheck business filters

/-- The review-count block of `meetsFilterCriteria`, chained into the
price blocks. -/
def reviewsCheck (business : BizData) (filters : Filters) : Bool :=
  if decide (0 < filters.minReviews) && jvalTruthy business.reviewCount then
    if jvalLtNat business.reviewCount filters.minReviews then false
    else priceLevelCheck business filters
  else priceLevelCheck business filters

/-- Embeds `meetsFilterCriteria`: the rating, review-count, price-level
and price-range checks in source order, each one skipped when its filter
is inactive or the business lacks the field (sparse-field policy). -/
def meetsFilterCriteria (business : BizData) (filters : Filters) : Bool :=
  if Dec.blt (Dec.ofNat 0) filters.minRating && jvalTruthy business.rating then
    if jvalLtDec business.rating filters.minRating then false
    else reviewsCheck business filters
  else reviewsCheck business filters

/-- Anchored attempt of the email-harvest regex
`[a-zA-Z0-9._%+-]+@[a-zA-Z0-9.-]+\.[a-zA-Z]{2,}` (unanchored global form):
a maximal local-part run, the at sign, then the greedy domain — the
longest domain-character prefix that ends at a dot followed by at least
two letters, the trailing letter run taken maximally. -/
def tryEmailAt (l : List Char) : Option (String × List Char) :=
  let localPart := l.takeWhile isLocalChar
  if localPart.isEmpty then none
  else
    match l.drop localPart.length with
    | '@' :: dom =>
      let run2 := dom.takeWhile isDomChar
      let js := (List.range run2.length).reverse
      match js.find? (fun j =>
          decide (1 ≤ j) &&
            (match run2.drop j with
             | '.' :: t => decide (2 ≤ (t.takeWhile Char.isAlpha).length)
             | _ => false)) with
      | some j =>
        let tail := (run2.drop (j + 1)).takeWhile Char.isAlpha
        some (⟨localPart ++ '@' :: (run2.take j ++ '.' :: tail)⟩,
              dom.drop (j + 1 + tail.length))
      | none => none
    | _ => none

/-- Helper for `emailScan`: scan left to right collecting non-overlapping
matches; the fuel argument (initialized to the string length) only
discharges termination — every step consumes at least one character, so
it never runs out before the input does. -/
def emailScanGo : Nat → List Char → List String
  | 0, _ => []
  | _ + 1, [] => []
  | fuel + 1, c :: rest =>
    match tryEmailAt (c :: rest) with
    | some (m, rem) => m :: emailScanGo fuel rem
    | none => emailScanGo fuel rest

/-- All matches of the global email regex in a string, in order
(`html.match(pattern) || []`). -/
def emailScan (s : String) : List String := emailScanGo s.data.length s.data

/-- Embeds `extractEmailsFromHTML`: regex-scan the HTML, validate each
candidate, and keep the first occurrence of each survivor. -/
def extractEmailsFromHTML (bl : Blacklist) (html : String) : List String :=
  if html == emptyStr then []
  else dedupFirst ((emailScan html).filterMap (validateEmail bl))

/-- Trailing literal of the hours aria-label regex. -/
def copyOpenHours : String := "Copy open hours"

/-- Characters matched by `.` in a JavaScript regex (anything except a
line terminator). -/
def dotChar (c : Char) : Bool :=
  !(c = '\n' || c = '\r' || c = ' ' || c = ' ')

/-- After the lazy group, the regex requires a comma, optional
whitespace, and the literal `Copy open hours` (case-insensitive). -/
def hoursSuffixOk (x : List Char) : Bool :=
  match x with
  | ',' :: y => isPrefCI copyOpenHours.data (dropWs y)
  | _ => false

/-- Anchored match of the hours aria-label regex
`^(Monday|…|Sunday),\s*(.+?),\s*Copy open hours/i`: the weekday
alternation is case-insensitive and captures the original text; `\s*` is
greedy (longest first) and `(.+?)` lazy (shortest first), implemented by
the corresponding search order over split points.  Returns the two
capture groups (the time range still untrimmed). -/
def matchHoursLabel (s : String) : Option (String × String) :=
  let l := s.data
  match validDays.find? (fun d => isPrefCI d.data l) with
  | none => none
  | some d =>
    let dayChars := l.take d.length
    match l.drop d.length with
    | ',' :: r =>
      let wsMax := (r.takeWhile isJsWs).length
      match ((List.range (wsMax + 1)).reverse).findSome? (fun j =>
          let m := r.drop j
          ((List.range m.length).find? (fun g =>
            decide (1 ≤ g) && (m.take g).all dotChar && hoursSuffixOk (m.drop g))).map
            (fun g => m.take g)) with
      | some group => some (⟨dayChars⟩, ⟨group⟩)
      | none => none
    | _ => none

/-- One aria-label processed as by the page-evaluation callback of
`extractHoursData` (scraper module): a null or empty label is skipped,
otherwise the regex is applied and the captured time range trimmed. -/
def hoursEntry (ariaLabel : Option String) : Option (String × String) :=
  match ariaLabel with
  | none => none
  | some s =>
    if s == emptyStr then none
    else (matchHoursLabel s).map (fun p => (p.1, jsTrim p.2))

/-- Helper for `extractHoursFromLabels`: fold over the button labels
keeping only the first occurrence of each captured day.  The source keeps
a separate `seenDays` set, which is always exactly the key set of the
accumulated hours object, so the accumulator keys serve as the set. -/
def hoursGo : List (Option String) → List (String × String) → List (String × String)
  | [], acc => acc
  | lab :: rest, acc =>
    match hoursEntry lab with
    | none => hoursGo rest acc
    | some (day, timeRange) =>
      if (acc.map Prod.fst).contains day then hoursGo rest acc
      else hoursGo rest (acc ++ [(day, timeRange)])

/-- The pure core of `extractHoursData`: the hours object built from the
aria-labels of the disclosed schedule buttons, first occurrence per
captured day, in insertion order. -/
def extractHoursFromLabels (labels : List (Option String)) : List (String × String) :=
  hoursGo labels []

/-- Embeds the tail of `extractHoursData`: an empty hours object becomes
null.  The DOM part (locating and clicking the disclosure button) is
abstracted into the label list. -/
def extractHoursData (labels : List (Option String)) : Option (List (String × String)) :=
  let hoursData := extractHoursFromLabels labels
  if hoursData.isEmpty then none else some hoursData

/-- One listing card as the walker sees it: the `href` attribute of the
card anchor, and the raw record its detail view yields — `none` when the
business name cannot be located or per-item extraction throws (both are
treated as a skip by the source). -/
structure Card where
  href : Option String
  raw : Option BizData
deriving DecidableEq

/-- Embeds the identity handling at the top of `extractBusinessData`: a
missing or already-seen URL aborts with null before any extraction;
otherwise the URL is recorded as seen (even if the later extraction
fails) and the detail view is extracted. -/
def extractBusinessData (c : Card) (seenUrls : List String) :
    Option BizData × List String :=
  match c.href with
  | none => (none, seenUrls)
  | some u =>
    if seenUrls.contains u then (none, seenUrls)
    else (c.raw, u :: seenUrls)

/-- The walker context: the blacklist, the feed (the list of rendered
cards as a function of the iteration index), the result cap, and the
filter configuration. -/
structure WalkCtx where
  bl : Blacklist
  feed : Nat → List Card
  maxResults : Nat
  filters : Filters

/-- The loop state of `extractBusinessListings`. -/
structure WalkState where
  businesses : List BizData
  seenUrls : List String
  previousCount : Nat
  noNewResultsCount : Nat
  t : Nat
deriving DecidableEq

/-- The state on entry to the while loop. -/
def initWalk : WalkState := ⟨[], [], 0, 0, 0⟩

/-- Embeds the inner for loop of `extractBusinessListings`: process the
cards beyond the previously seen count while the cap is not reached;
extraction failures and validation errors (caught by the per-item
try/catch) and filter rejections skip the card. -/
def processCards (ctx : WalkCtx) :
    List Card → List BizData → List String → List BizData × List String
  | [], bs, seen => (bs, seen)
  | c :: rest, bs, seen =>
    if decide (ctx.maxResults ≤ bs.length) then (bs, seen)
    else
      match extractBusinessData c seen with
      | (none, seen1) => processCards ctx rest bs seen1
      | (some rawBiz, seen1) =>
        match validateBusinessData ctx.bl rawBiz with
        | .error _ => processCards ctx rest bs seen1
        | .ok validatedData =>
          if meetsFilterCriteria validatedData ctx.filters then
            processCards ctx rest (bs ++ [validatedData]) seen1
          else processCards ctx rest bs seen1

/-- One iteration of the while loop of `extractBusinessListings`:
`Sum.inl` is the loop exiting with the accumulated result, `Sum.inr` the
state carried into the next iteration.  The guard, the stall counter
(three consecutive iterations without growth of the rendered card count),
and the cap check appear in source order. -/
def walkStep (ctx : WalkCtx) (s : WalkState) : Sum (List BizData) WalkState :=
  if decide (ctx.maxResults ≤ s.businesses.length) then .inl s.businesses
  else
    let links := ctx.feed s.t
    match processCards ctx (links.drop s.previousCount) s.businesses s.seenUrls with
    | (bs, seen) =>
      if links.length = s.previousCount then
        if decide (3 ≤ s.noNewResultsCount + 1) then .inl bs
        else if decide (ctx.maxResults ≤ bs.length) then .inl bs
        else .inr ⟨bs, seen, links.length, s.noNewResultsCount + 1, s.t + 1⟩
      else if decide (ctx.maxResults ≤ bs.length) then .inl bs
      else .inr ⟨bs, seen, links.length, 0, s.t + 1⟩

/-- Iterate the walker loop `n` times from a state; once the loop exits,
the result is retained (the scroll-and-settle suspension between
iterations has no effect on the loop state and is dropped). -/
def runWalk (ctx : WalkCtx) : Nat → WalkState → Sum (List BizData) WalkState
  | 0, s => .inr s
  | n + 1, s =>
    match runWalk ctx n s with
    | .inl r => .inl r
    | .inr s1 => walkStep ctx s1

/-- The walk of `extractBusinessListings` started from the initial state. -/
def extractBusinessListings (ctx : WalkCtx) (n : Nat) : Sum (List BizData) WalkState :=
  runWalk ctx n initWalk

/-- The web as the email finder sees it: `fetch` is navigation plus
`page.content()` (none models a navigation failure or timeout), `anchors`
the `(href, textContent)` pairs of the rendered anchor elements. -/
structure Web where
  fetch : String → Option String
  anchors : String → List (String × String)

/-- The contact-page vocabulary of `findContactPages`. -/
def contactVocab : List String :=
  [("contact"), ("about"), ("team"), ("get-in-touch"), ("reach-us"),
   ("email"), ("connect")]

/-- Embeds `findContactPages`: anchors whose lowercased href or text
contains a vocabulary word, hrefs deduplicated in order. -/
def findContactPages (web : Web) (url : String) : List String :=
  let links := (web.anchors url).map (fun a => (a.1, jsLower a.2))
  let filtered := links.filter (fun link =>
    contactVocab.any (fun pattern =>
      strIncludes (jsLower link.1) pattern || strIncludes link.2 pattern))
  dedupFirst (filtered.map Prod.fst)

/-- Embeds `findEmailOnWebsite`: navigate to the site (any navigation
failure is caught and yields null), harvest emails from the main page,
then from up to two contact-like pages (per-page failures silently
skipped), accumulate the set union in insertion order; a nonempty
result is returned with the `website` source tag, otherwise null. -/
def findEmailOnWebsite (bl : Blacklist) (web : Web) (websiteUrl : String) :
    Option (List String × String) :=
  if websiteUrl == emptyStr then none
  else
    match web.fetch websiteUrl with
    | none => none
    | some pageContent =>
      let mainEmails := extractEmailsFromHTML bl pageContent
      let contactLinks := findContactPages web websiteUrl
      let extraEmails := (contactLinks.take 2).map (fun link =>
        match web.fetch link with
        | none => []
        | some content => extractEmailsFromHTML bl content)
      let allEmails := dedupFirst (mainEmails ++ extraEmails.flatten)
      if allEmails.isEmpty then none else some (allEmails, websiteSrc)

/-- Embeds `batchFindEmails`: every business with a truthy website is
visited and its email fields overwritten with the crawl outcome; a
business without a website is returned untouched.  The p-limit semaphore
only bounds simultaneous contexts — each task mutates its own record and
`Promise.all` collects results in input order, so the batch is the
per-record map. -/
def batchFindEmails (bl : Blacklist) (web : Web) (businesses : List BizData) :
    List BizData :=
  businesses.map (fun business =>
    match business.website with
    | none => business
    | some w =>
      if w == emptyStr then business
      else
        match findEmailOnWebsite bl web w with
        | some result =>
          { business with emails := some result.1, emailSource := some result.2 }
        | none =>
          { business with emails := some [], emailSource := some notFoundSrc })

deriving instance DecidableEq for Except

/-- The empty blacklist, used by concrete scenarios. -/
def noBl : Blacklist := ⟨[], []⟩

/-- Extract the value of a successful validation (concrete scenarios only
apply this to computations known to succeed). -/
def okBiz (e : Except Unit BizData) : BizData :=
  match e with
  | .ok v => v
  | .error _ => emptyBiz

/-- A minimal raw record as `extractBusinessData` would emit it: a name,
the default review-count string, a maps URL, no profile email. -/
def mkRaw (nm url : String) : BizData :=
  { emptyBiz with
      businessName := some nm
      reviewCount := .jstr ("0")
      googleMapsUrl := some url
      emails := some []
      emailSource := some notFoundSrc }

/-- Claim C4, part of the proof: the price-range block characterization
is proved together with the other filter blocks in `spec_C4`. -/
theorem digitGroups_empty : digitGroups emptyStr = [] := rfl

/-- C4: price filters are pass-when-absent and keyed on the first digit
group: a record without a price range passes any min or max price filter;
with a plus-marked range and a positive max-price bound, it passes iff
the first digit group is at most the bound; with a two-number range and a
positive max-price bound, it passes iff the first (lower) number is at
most the bound, regardless of the second; a record without a price level
passes any price-level filter. -/
theorem spec_C4 (b : BizData) (mn mx : Nat) (lvls : List String) :
    (b.priceRange = none →
      meetsFilterCriteria b ⟨Dec.ofNat 0, 0, [], mn, mx⟩ = true)
    ∧ (∀ s n rest, 0 < mx → b.priceRange = some s →
        digitGroups s = n :: rest → strHasChar s '+' = true →
        (meetsFilterCriteria b ⟨Dec.ofNat 0, 0, [], 0, mx⟩ = true ↔ n ≤ mx))
    ∧ (∀ s n m, 0 < mx → b.priceRange = some s →
        digitGroups s = [n, m] → strHasChar s '+' = false →
        (meetsFilterCriteria b ⟨Dec.ofNat 0, 0, [], 0, mx⟩ = true ↔ n ≤ mx))
    ∧ (b.priceLevel = none →
      meetsFilterCriteria b ⟨Dec.ofNat 0, 0, lvls, 0, 0⟩ = true) := by
  refine ⟨?_, ?_, ?_, ?_⟩
  · intro hpr
    simp [meetsFilterCriteria, reviewsCheck, priceLevelCheck, priceRangeCheck,
      hpr, strTruthy, Dec.blt, Dec.ofNat]
  · intro s n rest hmx hpr hdg hplus
    have hs : ¬(s == emptyStr) = true := by
      intro h
      rw [eq_of_beq h] at hdg
      rw [digitGroups_empty] at hdg
      exact absurd hdg (by simp)
    simp only [meetsFilterCriteria, reviewsCheck, priceLevelCheck, priceRangeCheck,
      hpr, strTruthy, jvalTruthy, Dec.blt, Dec.ofNat, hdg, hplus, hs]
    by_cases hcmp : mx < n
    · simp [hmx, hcmp, hdg, hplus]
    · simp [hmx, hcmp, hdg, hplus]
      omega
  · intro s n m hmx hpr hdg hplus
    have hs : ¬(s == emptyStr) = true := by
      intro h
      rw [eq_of_beq h] at hdg
      rw [digitGroups_empty] at hdg
      exact absurd hdg (by simp)
    simp only [meetsFilterCriteria, reviewsCheck, priceLevelCheck, priceRangeCheck,
      hpr, strTruthy, jvalTruthy, Dec.blt, Dec.ofNat, hdg, hplus, hs]
    by_cases hcmp : mx < n
    · simp [hmx, hcmp, hdg, hplus]
    · simp [hmx, hcmp, hdg, hplus]
      omega
  · intro hpl
    simp [meetsFilterCriteria, reviewsCheck, priceLevelCheck, priceRangeCheck,
      hpl, strTruthy, Dec.blt, Dec.ofNat]

/-- A record carrying only the open-ended price range of the spec
example. -/
def prPlus : BizData := { emptyBiz with priceRange := some ("$100+") }

/-- A record carrying only the two-number price range of the spec
example. -/
def prBand : BizData := { emptyBiz with priceRange := some ("$30–40") }

/-- Witness for C4 at the three spec examples: a record without a price
range passes a min-price-50 filter; a plus-marked 100 range passes a
max-price-150 filter; a 30-to-40 band fails a max-price-20 filter. -/
theorem spec_C4_witness :
    meetsFilterCriteria emptyBiz ⟨Dec.ofNat 0, 0, [], 50, 0⟩ = true
    ∧ meetsFilterCriteria prPlus ⟨Dec.ofNat 0, 0, [], 0, 150⟩ = true
    ∧ meetsFilterCriteria prBand ⟨Dec.ofNat 0, 0, [], 0, 20⟩ = false := by
  refine ⟨(spec_C4 emptyBiz 50 0 []).1 rfl, ?_, ?_⟩
  · exact ((spec_C4 prPlus 0 150 []).2.1 ("$100+") 100 [] (by decide) rfl
      (by decide) (by decide)).mpr (by decide)
  · have h := (spec_C4 prBand 0 20 []).2.2.1 ("$30–40") 30 40 (by decide) rfl
      (by decide) (by decide)
    have hn : ¬meetsFilterCriteria prBand ⟨Dec.ofNat 0, 0, [], 0, 20⟩ = true := by
      intro hm
      exact absurd (h.mp hm) (by decide)
    simpa using hn

/-- C10: the pass-when-absent policy extends to the rating and
review-count filters — a null rating passes any minimum-rating filter,
and a zero review count passes any minimum-review filter, because the
source only compares when the field is truthy. -/
theorem spec_C10 (b : BizData) (mr : Dec) (mv : Nat) :
    (b.rating = .jnull → meetsFilterCriteria b ⟨mr, 0, [], 0, 0⟩ = true)
    ∧ (b.reviewCount = .jnum (Dec.ofNat 0) →
        meetsFilterCriteria b ⟨Dec.ofNat 0, mv, [], 0, 0⟩ = true) := by
  constructor
  · intro hr
    simp [meetsFilterCriteria, reviewsCheck, priceLevelCheck, priceRangeCheck,
      hr, jvalTruthy, strTruthy, Dec.blt, Dec.ofNat]
  · intro hc
    simp [meetsFilterCriteria, reviewsCheck, priceLevelCheck, priceRangeCheck,
      hc, jvalTruthy, strTruthy, Dec.blt, Dec.ofNat, Dec.isZero]

/-- A record with a null rating and a zero review count, as the validator
emits for a record with no rating text. -/
def unratedBiz : BizData :=
  { emptyBiz with rating := .jnull, reviewCount := .jnum (Dec.ofNat 0) }

/-- Witness for C10: the unrated record passes a minimum-rating filter of
4.5 and a minimum-review filter of 100. -/
theorem spec_C10_witness :
    meetsFilterCriteria unratedBiz ⟨⟨45, 10⟩, 0, [], 0, 0⟩ = true
    ∧ meetsFilterCriteria unratedBiz ⟨Dec.ofNat 0, 100, [], 0, 0⟩ = true :=
  ⟨(spec_C10 unratedBiz ⟨45, 10⟩ 0).1 rfl,
   (spec_C10 unratedBiz (Dec.ofNat 0) 100).2 rfl⟩

/-- A raw record whose extracted business name is a single space: truthy
for the extractor's name check, yet normalizing to empty. -/
def rawWs : BizData := mkRaw (" ") ("https://m/9")

/-- A one-card feed delivering the whitespace-named record, with the cap
at one and no filters. -/
def ctxC1 : WalkCtx := ⟨noBl, fun _ => [⟨some ("w1"), some rawWs⟩], 1, noFilters⟩

/-- C1: the failing input for the claim that the validator rejects
records whose name normalizes to empty.  On a raw record with a
whitespace-only business name, `validateBusinessData` succeeds (it never
returns null) and produces a record with a null `businessName`, and the
walker pushes that record into its result set — the dead
`if (!validatedData) continue` guard in the scraper documents the
intended rejection that the validator does not implement. -/
theorem spec_C1 :
    (okBiz (validateBusinessData noBl rawWs)).businessName = none
    ∧ (validateBusinessData noBl rawWs).isOk = true
    ∧ extractBusinessListings ctxC1 1 = .inl [okBiz (validateBusinessData noBl rawWs)] := by
  decide

/-- A raw record carrying a rating string, as extraction emits it. -/
def rawRated : BizData := { mkRaw ("A") ("https://m/1") with rating := .jstr ("4.5") }

/-- Counterexample to C3 as stated: validating `rawRated` succeeds, but
re-applying the validator to its own output throws (the output rating is
the number 4.5, and `parseRating` calls `.match` on it), so re-validation
is not a no-op. -/
theorem spec_C3_counterexample :
    (validateBusinessData noBl rawRated).bind (validateBusinessData noBl) = .error ()
    ∧ (validateBusinessData noBl rawRated).isOk = true := by
  decide

/-- C3 amended: the validator is not idempotent — re-applying
`validateBusinessData` to any of its own outputs with a nonzero numeric
rating, or a nonzero numeric review count, throws a TypeError
(`.match` is called on a number) instead of returning the record. -/
theorem spec_C3 (bl : Blacklist) (r v : BizData) (q : Dec) :
    (validateBusinessData bl r = .ok v → v.rating = .jnum q → q.isZero = false →
      validateBusinessData bl v = .error ())
    ∧ (validateBusinessData bl r = .ok v → v.reviewCount = .jnum q → q.isZero = false →
      validateBusinessData bl v = .error ()) := by
  constructor
  · intro h hq hz
    cases hr : parseRatingJ r.rating with
    | error e => simp [validateBusinessData, hr, bind, Except.bind] at h
    | ok rat =>
      cases hc : parseReviewCountJ r.reviewCount with
      | error e => simp [validateBusinessData, hr, hc, bind, Except.bind] at h
      | ok rc =>
        simp [validateBusinessData, hr, hc, bind, Except.bind] at h
        cases rat with
        | some q0 =>
          have hvr : v.rating = JVal.jnum q0 := by rw [← h]
          rw [hvr] at hq
          simp at hq
          subst hq
          simp [validateBusinessData, hvr, parseRatingJ, hz, bind, Except.bind]
        | none =>
          have hvr : v.rating = JVal.jnull := by rw [← h]
          rw [hvr] at hq
          simp at hq
  · intro h hq hz
    cases hr : parseRatingJ r.rating with
    | error e => simp [validateBusinessData, hr, bind, Except.bind] at h
    | ok rat =>
      cases hc : parseReviewCountJ r.reviewCount with
      | error e => simp [validateBusinessData, hr, hc, bind, Except.bind] at h
      | ok rc =>
        simp [validateBusinessData, hr, hc, bind, Except.bind] at h
        have hrc : v.reviewCount = .jnum (Dec.ofNat rc) := by rw [← h]
        rw [hrc] at hq
        simp at hq
        have hz2 : (Dec.ofNat rc).isZero = false := by rw [hq]; exact hz
        cases rat with
        | some q0 =>
          have hvr : v.rating = JVal.jnum q0 := by rw [← h]
          by_cases hq0 : q0.isZero = true
          · simp [validateBusinessData, hvr, parseRatingJ, hq0, parseReviewCountJ,
              hrc, hz2, bind, Except.bind]
          · simp [validateBusinessData, hvr, parseRatingJ, hq0, bind, Except.bind]
        | none =>
          have hvr : v.rating = JVal.jnull := by rw [← h]
          simp [validateBusinessData, hvr, parseRatingJ, parseReviewCountJ,
            hrc, hz2, bind, Except.bind]

/-- Witness for C3 at the concrete rated record: re-validating its
validated form throws. -/
theorem spec_C3_witness :
    validateBusinessData noBl (okBiz (validateBusinessData noBl rawRated)) = .error () :=
  (spec_C3 noBl rawRated (okBiz (validateBusinessData noBl rawRated)) ⟨45, 10⟩).1
    (by decide) (by decide) (by decide)

/-- A validated record carrying a profile email found via the mailto side
channel, together with a website. -/
def gProfBiz : BizData :=
  { emptyBiz with
      website := some ("https://x.co")
      emails := some [("a@x.co")]
      emailSource := some googleProfileSrc }

/-- The same profile-email record without a website. -/
def gProfNoSite : BizData :=
  { emptyBiz with
      emails := some [("a@x.co")]
      emailSource := some googleProfileSrc }

/-- A web on which every navigation fails. -/
def deadWeb : Web := ⟨fun _ => none, fun _ => []⟩

/-- Counterexample to C2 as stated: a record that carries the
`google_profile` email source and a website is handed to
`batchFindEmails`, which overwrites its email fields with the crawl
outcome — here the site never loads, so the profile email is discarded
and the source reset to `not_found`, rather than left in place. -/
theorem spec_C2_counterexample :
    gProfBiz.emailSource = some googleProfileSrc
    ∧ gProfBiz.website = some ("https://x.co")
    ∧ batchFindEmails noBl deadWeb [gProfBiz] =
        [{ gProfBiz with emails := some [], emailSource := some notFoundSrc }] := by
  decide

/-- C2 amended: the `google_profile` side channel survives the email
enrichment stage only for records without a website; every record with a
truthy website has its email fields unconditionally overwritten by
`batchFindEmails` with the crawl outcome — a nonempty email list tagged
`website`, or the empty list tagged `not_found`. -/
theorem spec_C2 (bl : Blacklist) (web : Web) (b : BizData) :
    (b.website = none → batchFindEmails bl web [b] = [b])
    ∧ (∀ u, b.website = some u → ¬(u == emptyStr) = true →
        (∃ es, es ≠ [] ∧ batchFindEmails bl web [b] =
            [{ b with emails := some es, emailSource := some websiteSrc }])
        ∨ batchFindEmails bl web [b] =
            [{ b with emails := some [], emailSource := some notFoundSrc }]) := by
  constructor
  · intro hw
    simp [batchFindEmails, hw]
  · intro u hw hne
    have hne2 : ¬u = emptyStr := by simpa using hne
    cases hf : findEmailOnWebsite bl web u with
    | some result =>
      left
      have hf2 := hf
      unfold findEmailOnWebsite at hf2
      rw [if_neg hne] at hf2
      cases hfetch : web.fetch u with
      | none => rw [hfetch] at hf2; simp at hf2
      | some content =>
        rw [hfetch] at hf2
        simp at hf2
        refine ⟨result.1, ?_, ?_⟩
        · rw [← hf2.2]
          simpa using hf2.1
        · have hsrc : result.2 = websiteSrc := by rw [← hf2.2]
          simp [batchFindEmails, hw, hne2, hf, hsrc]
    | none =>
      right
      simp [batchFindEmails, hw, hne2, hf]

/-- Witness for C2: a record without a website passes the stage
untouched (its profile email survives), and the record with a website is
resolved by the stage into one of the two overwrite outcomes. -/
theorem spec_C2_witness :
    batchFindEmails noBl deadWeb [gProfNoSite] = [gProfNoSite]
    ∧ ((∃ es, es ≠ [] ∧ batchFindEmails noBl deadWeb [gProfBiz] =
          [{ gProfBiz with emails := some es, emailSource := some websiteSrc }])
        ∨ batchFindEmails noBl deadWeb [gProfBiz] =
          [{ gProfBiz with emails := some [], emailSource := some notFoundSrc }]) :=
  ⟨(spec_C2 noBl deadWeb gProfNoSite).1 rfl,
   (spec_C2 noBl deadWeb gProfBiz).2 ("https://x.co") rfl (by decide)⟩

/-- Shared helper for C5: `parseCoordinates` returns either two nulls or
two in-bounds values — by case analysis over both regex attempts and
their bounds checks. -/
theorem parseCoordinates_cases (url : Option String) :
    ((parseCoordinates url).1 = none ↔ (parseCoordinates url).2 = none)
    ∧ (∀ a b, (parseCoordinates url).1 = some a → (parseCoordinates url).2 = some b →
        latOK a = true ∧ lngOK b = true) := by
  cases url with
  | none => simp [parseCoordinates]
  | some u =>
    by_cases hu : (u == emptyStr) = true
    · simp [parseCoordinates, hu]
    · cases hat : scanFirst atMatchAt u.data with
      | some p =>
        by_cases hok : (latOK p.1 && lngOK p.2) = true
        · simp [parseCoordinates, hu, hat, hok]
          simp at hok
          exact hok
        · cases h3 : scanFirst d34MatchAt u.data with
          | some p3 =>
            by_cases hok3 : (latOK p3.1 && lngOK p3.2) = true
            · simp [parseCoordinates, hu, hat, hok, h3, hok3]
              simp at hok3
              exact hok3
            · simp [parseCoordinates, hu, hat, hok, h3, hok3]
          | none => simp [parseCoordinates, hu, hat, hok, h3]
      | none =>
        cases h3 : scanFirst d34MatchAt u.data with
        | some p3 =>
          by_cases hok3 : (latOK p3.1 && lngOK p3.2) = true
          · simp [parseCoordinates, hu, hat, h3, hok3]
            simp at hok3
            exact hok3
          · simp [parseCoordinates, hu, hat, h3, hok3]
        | none => simp [parseCoordinates, hu, hat, h3]

/-- A URL carrying an out-of-bounds at-sign coordinate pair followed by
an in-bounds `!3d!4d` pair. -/
def urlBoth : String := "@95.5,10.0 !3d40.1!4d-73.9"

/-- Counterexample to C5 as stated: on `urlBoth` the at-sign pattern is
present (values 95.5 and 10.0), so under the claimed priority the result
would come from the at-sign values — out of bounds, hence both null —
but the source falls through to the `!3d!4d` pattern and returns its
values instead. -/
theorem spec_C5_counterexample :
    scanFirst atMatchAt urlBoth.data = some (⟨955, 10⟩, ⟨100, 10⟩)
    ∧ latOK (⟨955, 10⟩ : Dec) = false
    ∧ parseCoordinates (some urlBoth) = (some ⟨401, 10⟩, some (Dec.neg ⟨739, 10⟩)) := by
  decide

/-- C5 amended: `parseCoordinates` returns both coordinates or neither,
any returned pair is within geographic bounds, the at-sign pattern wins
whenever its own values are in bounds (an out-of-bounds at-sign match
falls through to the `!3d!4d` pattern), and every validated record
satisfies the latitude-null-iff-longitude-null invariant. -/
theorem spec_C5 (url : Option String) :
    ((parseCoordinates url).1 = none ↔ (parseCoordinates url).2 = none)
    ∧ (∀ a b, (parseCoordinates url).1 = some a → (parseCoordinates url).2 = some b →
        latOK a = true ∧ lngOK b = true)
    ∧ (∀ u a b, url = some u → scanFirst atMatchAt u.data = some (a, b) →
        latOK a = true → lngOK b = true → parseCoordinates url = (some a, some b))
    ∧ (∀ bl r v, validateBusinessData bl r = .ok v →
        (v.latitude = none ↔ v.longitude = none)) := by
  refine ⟨(parseCoordinates_cases url).1, (parseCoordinates_cases url).2, ?_, ?_⟩
  · intro u a b hu hat hla hlb
    subst hu
    have hne : ¬(u == emptyStr) = true := by
      intro he
      rw [eq_of_beq he] at hat
      simp [scanFirst, atMatchAt, emptyStr] at hat
    simp [parseCoordinates, hne, hat, hla, hlb]
  · intro bl r v h
    cases hr : parseRatingJ r.rating with
    | error e => simp [validateBusinessData, hr, bind, Except.bind] at h
    | ok rat =>
      cases hc : parseReviewCountJ r.reviewCount with
      | error e => simp [validateBusinessData, hr, hc, bind, Except.bind] at h
      | ok rc =>
        simp [validateBusinessData, hr, hc, bind, Except.bind] at h
        have hla : v.latitude = (parseCoordinates r.googleMapsUrl).1 := by rw [← h]
        have hlo : v.longitude = (parseCoordinates r.googleMapsUrl).2 := by rw [← h]
        rw [hla, hlo]
        exact (parseCoordinates_cases r.googleMapsUrl).1

/-- A URL carrying an in-bounds at-sign pair and a distinct `!3d!4d`
pair. -/
def urlAt : String := "@40.6892,-73.9915,17z!3d10.0!4d20.0"

/-- Witness for C5: on `urlAt` the in-bounds at-sign values win over the
`!3d!4d` pair, and a concrete validated record satisfies the
both-or-neither invariant. -/
theorem spec_C5_witness :
    parseCoordinates (some urlAt) = (some ⟨406892, 10000⟩, some (Dec.neg ⟨739915, 10000⟩))
    ∧ ((okBiz (validateBusinessData noBl rawWs)).latitude = none ↔
        (okBiz (validateBusinessData noBl rawWs)).longitude = none) :=
  ⟨(spec_C5 (some urlAt)).2.2.1 urlAt ⟨406892, 10000⟩ (Dec.neg ⟨739915, 10000⟩) rfl
      (by decide) (by decide) (by decide),
   (spec_C5 (some urlAt)).2.2.2 noBl rawWs (okBiz (validateBusinessData noBl rawWs))
      (by decide)⟩

/-- The five-card feed of the C7 scenario: per-card extraction fails
(no business name found) exactly for cards 2 and 4. -/
def fiveCards : List Card :=
  [⟨some ("u1"), some (mkRaw ("Alpha") ("https://m/1"))⟩,
   ⟨some ("u2"), none⟩,
   ⟨some ("u3"), some (mkRaw ("Gamma") ("https://m/3"))⟩,
   ⟨some ("u4"), none⟩,
   ⟨some ("u5"), some (mkRaw ("Epsilon") ("https://m/5"))⟩]

/-- The C7 walk: cap of three, no filters, the five-card feed. -/
def ctxC7 : WalkCtx := ⟨noBl, fun _ => fiveCards, 3, noFilters⟩

/-- C7: with `maxResults = 3` over the five-card feed where cards 2 and 4
fail extraction, the walk exits within its first iteration with exactly
the validated records of cards 1, 3 and 5, in that relative order —
failed cards do not count toward the cap. -/
theorem spec_C7 :
    extractBusinessListings ctxC7 1 =
      .inl [okBiz (validateBusinessData noBl (mkRaw ("Alpha") ("https://m/1"))),
            okBiz (validateBusinessData noBl (mkRaw ("Gamma") ("https://m/3"))),
            okBiz (validateBusinessData noBl (mkRaw ("Epsilon") ("https://m/5")))]
    ∧ ((extractBusinessListings ctxC7 1).getLeft?.getD []).map
        (fun b => b.businessName) =
      [some ("Alpha"), some ("Gamma"), some ("Epsilon")] := by
  decide

/-- Everything kept by `dedupFirstGo` came from the input list. -/
theorem mem_of_mem_dedupFirstGo (x : String) :
    ∀ (l seen : List String), x ∈ dedupFirstGo seen l → x ∈ l := by
  intro l
  induction l with
  | nil => intro seen h; simp [dedupFirstGo] at h
  | cons y ys ih =>
    intro seen h
    by_cases hc : y ∈ seen
    · simp [dedupFirstGo, hc] at h
      exact List.mem_cons_of_mem y (ih seen h)
    · simp [dedupFirstGo, hc] at h
      cases h with
      | inl he => exact he ▸ List.mem_cons_self x ys
      | inr hm => exact List.mem_cons_of_mem y (ih (y :: seen) hm)

/-- Deduplication preserves the relative order of the survivors. -/
theorem dedupFirstGo_sublist :
    ∀ (l seen : List String), (dedupFirstGo seen l).Sublist l := by
  intro l
  induction l with
  | nil => intro seen; simp [dedupFirstGo]
  | cons y ys ih =>
    intro seen
    by_cases hc : y ∈ seen
    · have hstep : dedupFirstGo seen (y :: ys) = dedupFirstGo seen ys := by
        simp [dedupFirstGo, hc]
      rw [hstep]
      exact (ih seen).cons y
    · have hstep : dedupFirstGo seen (y :: ys) = y :: dedupFirstGo (y :: seen) ys := by
        simp [dedupFirstGo, hc]
      rw [hstep]
      exact (ih (y :: seen)).cons₂ y

/-- Nothing already seen is kept again. -/
theorem not_mem_dedupFirstGo (x : String) :
    ∀ (l seen : List String), x ∈ seen → x ∉ dedupFirstGo seen l := by
  intro l
  induction l with
  | nil => intro seen _ h; simp [dedupFirstGo] at h
  | cons y ys ih =>
    intro seen hx h
    by_cases hc : y ∈ seen
    · simp [dedupFirstGo, hc] at h
      exact ih seen hx h
    · simp [dedupFirstGo, hc] at h
      cases h with
      | inl he => exact hc (he ▸ hx)
      | inr hm => exact ih (y :: seen) (List.mem_cons_of_mem y hx) hm

/-- The deduplicated list holds each element at most once. -/
theorem nodup_dedupFirstGo :
    ∀ (l seen : List String), (dedupFirstGo seen l).Nodup := by
  intro l
  induction l with
  | nil => intro seen; simp [dedupFirstGo]
  | cons y ys ih =>
    intro seen
    by_cases hc : y ∈ seen
    · have hstep : dedupFirstGo seen (y :: ys) = dedupFirstGo seen ys := by
        simp [dedupFirstGo, hc]
      rw [hstep]
      exact ih seen
    · have hstep : dedupFirstGo seen (y :: ys) = y :: dedupFirstGo (y :: seen) ys := by
        simp [dedupFirstGo, hc]
      rw [hstep]
      refine List.nodup_cons.mpr ⟨?_, ih (y :: seen)⟩
      exact not_mem_dedupFirstGo y ys (y :: seen) (List.mem_cons_self y seen)

/-- A survivor of `validateEmail` contains no blacklisted domain
substring, matches no blacklisted pattern, and passes the syntax regex
(the checks ran on the trimmed lowercased form, which is the returned
value itself). -/
theorem validateEmail_props (bl : Blacklist) (c e : String)
    (h : validateEmail bl c = some e) :
    (∀ d, d ∈ bl.domains → strIncludes e d = false)
    ∧ (∀ p, p ∈ bl.patterns → p e = false)
    ∧ emailRegexTest e = true := by
  simp only [validateEmail] at h
  split_ifs at h with h1 h2 h3 h4
  have he : e = jsLower (jsTrim c) := (Option.some_inj.mp h).symm
  subst he
  refine ⟨?_, ?_, h4⟩
  · intro d hd
    by_contra hinc
    exact h2 (List.any_eq_true.mpr ⟨d, hd, by simpa using hinc⟩)
  · intro p hp
    by_contra hpt
    exact h3 (List.any_eq_true.mpr ⟨p, hp, by simpa using hpt⟩)

/-- C9: for every candidate list and blacklist, every validated email is
free of blacklisted domain substrings, matches no blacklisted pattern,
and passes the syntax regex; `extractEmailsFromHTML` additionally returns
each surviving address exactly once, in first-occurrence order (a
duplicate-free sublist of the validated scan). -/
theorem spec_C9 (bl : Blacklist) (emails : List String) (html : String) :
    (∀ e, e ∈ emails.filterMap (validateEmail bl) →
      (∀ d, d ∈ bl.domains → strIncludes e d = false)
      ∧ (∀ p, p ∈ bl.patterns → p e = false)
      ∧ emailRegexTest e = true)
    ∧ (∀ e, e ∈ extractEmailsFromHTML bl html →
      (∀ d, d ∈ bl.domains → strIncludes e d = false)
      ∧ (∀ p, p ∈ bl.patterns → p e = false)
      ∧ emailRegexTest e = true)
    ∧ (extractEmailsFromHTML bl html).Nodup
    ∧ (extractEmailsFromHTML bl html).Sublist
        ((emailScan html).filterMap (validateEmail bl)) := by
  have props : ∀ (l : List String) e, e ∈ l.filterMap (validateEmail bl) →
      (∀ d, d ∈ bl.domains → strIncludes e d = false)
      ∧ (∀ p, p ∈ bl.patterns → p e = false)
      ∧ emailRegexTest e = true := by
    intro l e he
    obtain ⟨c, _, hc⟩ := List.mem_filterMap.mp he
    exact validateEmail_props bl c e hc
  refine ⟨fun e he => props emails e he, ?_, ?_, ?_⟩
  · intro e he
    unfold extractEmailsFromHTML at he
    split_ifs at he with hh
    · simp at he
    · exact props _ e (mem_of_mem_dedupFirstGo e _ [] he)
  · unfold extractEmailsFromHTML
    split_ifs with hh
    · simp
    · exact nodup_dedupFirstGo _ []
  · unfold extractEmailsFromHTML
    split_ifs with hh
    · exact List.nil_sublist _
    · exact dedupFirstGo_sublist _ []

/-- The blacklist of the spec examples: the domain `example.com` and a
pattern rejecting addresses that start with `noreply@`. -/
def blEx : Blacklist :=
  ⟨[("example.com")], [fun s => isPref ("noreply@").data s.data]⟩

/-- Witness for C9 at the spec examples: in HTML containing a
blacklisted-domain address, a pattern-blacklisted address, and a twice-
occurring good address, the extraction returns only the good address
(once), and the theorem yields its properties. -/
theorem spec_C9_witness :
    extractEmailsFromHTML blEx
        ("info@example.com noreply@company.com ok@foo.org ok@foo.org") =
      [("ok@foo.org")]
    ∧ ((∀ d, d ∈ blEx.domains → strIncludes ("ok@foo.org") d = false)
      ∧ (∀ p, p ∈ blEx.patterns → p ("ok@foo.org") = false)
      ∧ emailRegexTest ("ok@foo.org") = true) :=
  ⟨by decide,
   (spec_C9 blEx []
      ("info@example.com noreply@company.com ok@foo.org ok@foo.org")).2.1
      ("ok@foo.org") (by decide)⟩

/-- A key absent from an association list looks up to nothing. -/
theorem lookup_of_not_key (k : String) :
    ∀ (acc : List (String × String)), k ∉ acc.map Prod.fst →
      List.lookup k acc = none := by
  intro acc
  induction acc with
  | nil => intro _; rfl
  | cons e t ih =>
    intro h
    simp at h
    cases e with
    | mk a b =>
      have hb : (k == a) = false := beq_eq_false_iff_ne.mpr (by simpa using h.1)
      simp only [List.lookup, hb]
      exact ih (by simpa using h.2)

/-- A key present in an association list looks up to some value. -/
theorem lookup_isSome_of_key (k : String) :
    ∀ (acc : List (String × String)), k ∈ acc.map Prod.fst →
      ∃ v, List.lookup k acc = some v := by
  intro acc
  induction acc with
  | nil => intro h; simp at h
  | cons e t ih =>
    intro h
    cases e with
    | mk a b =>
      by_cases hk : k = a
      · subst hk
        exact ⟨b, by simp [List.lookup]⟩
      · have hb : (k == a) = false := beq_eq_false_iff_ne.mpr hk
        simp [hk] at h
        obtain ⟨v, hv⟩ := ih (by simpa using h)
        exact ⟨v, by simp [List.lookup, hb, hv]⟩

/-- Lookup across an append prefers the first list. -/
theorem lookup_append_pair (k : String) :
    ∀ (l1 l2 : List (String × String)),
      List.lookup k (l1 ++ l2) =
        (match List.lookup k l1 with
         | some v => some v
         | none => List.lookup k l2) := by
  intro l1 l2
  induction l1 with
  | nil => simp [List.lookup]
  | cons e t ih =>
    cases e with
    | mk a b =>
      by_cases hk : k = a
      · subst hk
        simp [List.lookup]
      · have hb : (k == a) = false := beq_eq_false_iff_ne.mpr hk
        simp [List.lookup, hb, ih]

/-- The lookup characterization of the hours fold: each day resolves to
the value already accumulated, else to the first parsed entry carrying
that day — later duplicates never overwrite. -/
theorem hoursGo_lookup (d : String) :
    ∀ (labels : List (Option String)) (acc : List (String × String)),
      List.lookup d (hoursGo labels acc) =
        (match List.lookup d acc with
         | some v => some v
         | none =>
           ((labels.filterMap hoursEntry).find? (fun p => p.1 == d)).map Prod.snd) := by
  intro labels
  induction labels with
  | nil =>
    intro acc
    cases h : List.lookup d acc <;> simp [hoursGo, h]
  | cons lab rest ih =>
    intro acc
    cases he : hoursEntry lab with
    | none =>
      simp only [hoursGo, he]
      rw [ih acc]
      simp [List.filterMap_cons, he]
    | some p =>
      cases p with
      | mk day tr =>
        by_cases hc : ((acc.map Prod.fst).contains day) = true
        · simp only [hoursGo, he, hc, if_true]
          rw [ih acc]
          by_cases hd : day = d
          · subst hd
            obtain ⟨v, hv⟩ := lookup_isSome_of_key day acc (by simpa using hc)
            simp [hv]
          · have hb : (day == d) = false := beq_eq_false_iff_ne.mpr hd
            cases hacc : List.lookup d acc <;>
              simp [hacc, List.filterMap_cons, he, List.find?, hb]
        · have hcf : ((acc.map Prod.fst).contains day) = false := by simpa using hc
          rw [show hoursGo (lab :: rest) acc = hoursGo rest (acc ++ [(day, tr)]) from by
            simp [hoursGo, he, hcf]
            intro x hx
            have hdm : day ∈ acc.map Prod.fst := List.mem_map_of_mem Prod.fst hx
            exact absurd (by simpa using hdm) hc]
          rw [ih (acc ++ [(day, tr)])]
          rw [lookup_append_pair]
          cases hacc : List.lookup d acc with
          | some v => simp [hacc]
          | none =>
            by_cases hd : day = d
            · subst hd
              simp [hacc, List.lookup, List.filterMap_cons, he, List.find?]
            · have hb : (day == d) = false := beq_eq_false_iff_ne.mpr hd
              have hb2 : (d == day) = false := beq_eq_false_iff_ne.mpr (fun x => hd x.symm)
              simp [hacc, List.lookup, hb2, List.filterMap_cons, he, List.find?, hb]

/-- The hours fold keeps at most one entry per captured day. -/
theorem hoursGo_keys_nodup :
    ∀ (labels : List (Option String)) (acc : List (String × String)),
      (acc.map Prod.fst).Nodup → ((hoursGo labels acc).map Prod.fst).Nodup := by
  intro labels
  induction labels with
  | nil => intro acc h; simpa [hoursGo] using h
  | cons lab rest ih =>
    intro acc h
    cases he : hoursEntry lab with
    | none =>
      simp only [hoursGo, he]
      exact ih acc h
    | some p =>
      cases p with
      | mk day tr =>
        by_cases hc : ((acc.map Prod.fst).contains day) = true
        · simp only [hoursGo, he, hc, if_true]
          exact ih acc h
        · have hcf : ((acc.map Prod.fst).contains day) = false := by simpa using hc
          rw [show hoursGo (lab :: rest) acc = hoursGo rest (acc ++ [(day, tr)]) from by
            simp [hoursGo, he, hcf]
            intro x hx
            have hdm : day ∈ acc.map Prod.fst := List.mem_map_of_mem Prod.fst hx
            exact absurd (by simpa using hdm) hc]
          refine ih (acc ++ [(day, tr)]) ?_
          rw [List.map_append]
          simp only [List.map_cons, List.map_nil]
          rw [List.nodup_append]
          refine ⟨h, List.nodup_singleton day, ?_⟩
          intro x hx hxd
          simp at hxd
          subst hxd
          exact hc (by simpa using hx)

/-- Every key surviving `validateBusinessHours` is a canonical weekday. -/
theorem validateBusinessHours_keys (hours : Option (List (String × String))) :
    ∀ p, p ∈ (validateBusinessHours hours).getD [] → p.1 ∈ validDays := by
  intro p hp
  cases hours with
  | none => simp [validateBusinessHours] at hp
  | some entries =>
    simp only [validateBusinessHours] at hp
    split_ifs at hp with h1 h2
    · simp at hp
    · simp at hp
    · simp at hp
      obtain ⟨a, b, hmem, hcnd, heq⟩ := hp
      rw [← heq]
      simpa using hcnd.1

/-- C8: the hours pipeline keeps only the first-encountered time range
per captured day (lookup resolves to the first parsed entry for the day,
and the key set is duplicate-free), and after `validateBusinessHours`
every surviving key is one of the seven canonical weekday names. -/
theorem spec_C8 (labels : List (Option String)) (d : String) :
    (∀ p, p ∈ (validateBusinessHours (extractHoursData labels)).getD [] →
      p.1 ∈ validDays)
    ∧ List.lookup d (extractHoursFromLabels labels) =
        ((labels.filterMap hoursEntry).find? (fun p => p.1 == d)).map Prod.snd
    ∧ ((extractHoursFromLabels labels).map Prod.fst).Nodup := by
  refine ⟨validateBusinessHours_keys _, ?_, ?_⟩
  · have h := hoursGo_lookup d labels []
    simpa [extractHoursFromLabels, List.lookup] using h
  · exact hoursGo_keys_nodup labels [] (by simp)

/-- The duplicate-Monday input of the spec example. -/
def mondayLabels : List (Option String) :=
  [some ("Monday, 9:00 AM to 5:00 PM, Copy open hours"),
   some ("Monday, 1:00 PM to 2:00 PM, Copy open hours")]

/-- Witness for C8: with two Monday entries the map keeps the first
range, and the kept entry's key is canonical. -/
theorem spec_C8_witness :
    List.lookup ("Monday") (extractHoursFromLabels mondayLabels) =
      some ("9:00 AM to 5:00 PM")
    ∧ ((("Monday"), ("9:00 AM to 5:00 PM")) : String × String).1 ∈ validDays :=
  ⟨(spec_C8 mondayLabels ("Monday")).2.1.trans (by decide),
   (spec_C8 mondayLabels ("Monday")).1 ((("Monday"), ("9:00 AM to 5:00 PM")))
     (by decide)⟩

/-- A continuing walk iteration advances the clock, records the rendered
card count, and updates the stall counter purely from the count
comparison. -/
theorem walkStep_inr_fields (ctx : WalkCtx) (s s1 : WalkState)
    (h : walkStep ctx s = .inr s1) :
    s1.t = s.t + 1 ∧ s1.previousCount = (ctx.feed s.t).length
    ∧ s1.noNewResultsCount =
        (if (ctx.feed s.t).length = s.previousCount then s.noNewResultsCount + 1
         else 0) := by
  by_cases h1 : ctx.maxResults ≤ s.businesses.length
  · simp [walkStep, h1] at h
  · cases hpc : processCards ctx ((ctx.feed s.t).drop s.previousCount)
        s.businesses s.seenUrls with
    | mk bs seen =>
      by_cases h2 : (ctx.feed s.t).length = s.previousCount
      · by_cases h3 : 3 ≤ s.noNewResultsCount + 1
        · simp [walkStep, h1, hpc, h2, h3] at h
        · by_cases h4 : ctx.maxResults ≤ bs.length
          · simp [walkStep, h1, hpc, h2, h3, h4] at h
          · simp [walkStep, h1, hpc, h2, h3, h4] at h
            rw [← h]
            simp [h2]
      · by_cases h4 : ctx.maxResults ≤ bs.length
        · simp [walkStep, h1, hpc, h2, h4] at h
        · simp [walkStep, h1, hpc, h2, h4] at h
          rw [← h]
          simp [h2]

/-- From a state whose feed count equals the recorded previous count,
one iteration either exits or carries the incremented stall counter. -/
theorem walkStep_stall_cases (ctx : WalkCtx) (s : WalkState)
    (hp : (ctx.feed s.t).length = s.previousCount) :
    (∃ r, walkStep ctx s = .inl r)
    ∨ (∃ s1, walkStep ctx s = .inr s1
        ∧ s1.noNewResultsCount = s.noNewResultsCount + 1
        ∧ s1.previousCount = s.previousCount ∧ s1.t = s.t + 1) := by
  by_cases h1 : ctx.maxResults ≤ s.businesses.length
  · exact Or.inl ⟨s.businesses, by simp [walkStep, h1]⟩
  · cases hpc : processCards ctx ((ctx.feed s.t).drop s.previousCount)
        s.businesses s.seenUrls with
    | mk bs seen =>
      by_cases h3 : 3 ≤ s.noNewResultsCount + 1
      · exact Or.inl ⟨bs, by simp [walkStep, h1, hpc, hp, h3]⟩
      · by_cases h4 : ctx.maxResults ≤ bs.length
        · exact Or.inl ⟨bs, by simp [walkStep, h1, hpc, hp, h3, h4]⟩
        · refine Or.inr ⟨⟨bs, seen, (ctx.feed s.t).length,
            s.noNewResultsCount + 1, s.t + 1⟩,
            by simp [walkStep, h1, hpc, hp, h3, h4], rfl, by simpa using hp, rfl⟩

/-- The third consecutive stall exits the loop (the stall counter
reaches three after increment). -/
theorem walkStep_stall_exit (ctx : WalkCtx) (s : WalkState)
    (hp : (ctx.feed s.t).length = s.previousCount)
    (h2 : 2 ≤ s.noNewResultsCount) : ∃ r, walkStep ctx s = .inl r := by
  by_cases h1 : ctx.maxResults ≤ s.businesses.length
  · exact ⟨s.businesses, by simp [walkStep, h1]⟩
  · cases hpc : processCards ctx ((ctx.feed s.t).drop s.previousCount)
        s.businesses s.seenUrls with
    | mk bs seen =>
      have h3 : 3 ≤ s.noNewResultsCount + 1 := by omega
      exact ⟨bs, by simp [walkStep, h1, hpc, hp, h3]⟩

/-- Run composition: iterating `a + b` times runs `a` then `b`, with an
exited loop absorbing the remaining fuel. -/
theorem runWalk_add (ctx : WalkCtx) (a b : Nat) (s : WalkState) :
    runWalk ctx (a + b) s =
      (match runWalk ctx a s with
       | .inl r => .inl r
       | .inr s1 => runWalk ctx b s1) := by
  induction b with
  | zero =>
    cases h : runWalk ctx a s <;> simp [h, runWalk]
  | succ n ih =>
    rw [show a + (n + 1) = (a + n) + 1 from rfl]
    rw [show runWalk ctx ((a + n) + 1) s =
      (match runWalk ctx (a + n) s with
       | .inl r => .inl r
       | .inr s1 => walkStep ctx s1) from rfl]
    rw [ih]
    cases h : runWalk ctx a s with
    | inl r => rfl
    | inr s1 =>
      cases h2 : runWalk ctx n s1 <;> simp [runWalk, h2]

/-- Peeling one iteration off the front of a run. -/
theorem runWalk_front (ctx : WalkCtx) (n : Nat) (s : WalkState) :
    runWalk ctx (n + 1) s =
      (match walkStep ctx s with
       | .inl r => .inl r
       | .inr s1 => runWalk ctx n s1) := by
  rw [show n + 1 = 1 + n from Nat.add_comm n 1]
  rw [runWalk_add ctx 1 n s]
  rfl

/-- A still-running walk has taken one clock tick per iteration and its
recorded previous count is the card count of the last iteration. -/
theorem runWalk_state (ctx : WalkCtx) :
    ∀ (n : Nat) (s0 s1 : WalkState), runWalk ctx n s0 = .inr s1 →
      s1.t = s0.t + n
      ∧ (0 < n → s1.previousCount = (ctx.feed (s0.t + n - 1)).length) := by
  intro n
  induction n with
  | zero =>
    intro s0 s1 h
    simp [runWalk] at h
    rw [← h]
    simp
  | succ m ih =>
    intro s0 s1 h
    rw [show m + 1 = m + 1 from rfl] at h
    have h2 : (match runWalk ctx m s0 with
        | .inl r => .inl r
        | .inr s2 => walkStep ctx s2) = Sum.inr s1 := h
    cases hm : runWalk ctx m s0 with
    | inl r => rw [hm] at h2; simp at h2
    | inr s2 =>
      rw [hm] at h2
      simp at h2
      obtain ⟨ht, _⟩ := ih s0 s2 hm
      obtain ⟨ht1, hp1, _⟩ := walkStep_inr_fields ctx s2 s1 h2
      constructor
      · rw [ht1, ht]
        exact Nat.add_assoc s0.t m 1
      · intro _
        rw [hp1]
        have harg : s2.t = s0.t + (m + 1) - 1 := by omega
        rw [harg]

/-- From any state whose future feed counts all equal the recorded
count, the walk exits within three more iterations. -/
theorem runWalk3_left (ctx : WalkCtx) (s : WalkState)
    (hp : ∀ t, s.t ≤ t → (ctx.feed t).length = s.previousCount) :
    (runWalk ctx 3 s).isLeft = true := by
  rcases walkStep_stall_cases ctx s (hp s.t le_rfl) with ⟨r, hr⟩ | ⟨s1, h1, hc1, hpc1, ht1⟩
  · rw [runWalk_front ctx 2 s, hr]
    rfl
  · rw [runWalk_front ctx 2 s, h1]
    show (runWalk ctx 2 s1).isLeft = true
    have hp1 : ∀ t, s1.t ≤ t → (ctx.feed t).length = s1.previousCount := by
      intro t ht
      rw [hpc1]
      exact hp t (by omega)
    rcases walkStep_stall_cases ctx s1 (hp1 s1.t le_rfl) with ⟨r, hr⟩ | ⟨s2, h2, hc2, hpc2, ht2⟩
    · rw [runWalk_front ctx 1 s1, hr]
      rfl
    · rw [runWalk_front ctx 1 s1, h2]
      show (runWalk ctx 1 s2).isLeft = true
      have hp2 : (ctx.feed s2.t).length = s2.previousCount := by
        rw [hpc2, hpc1]
        exact hp s2.t (by omega)
      obtain ⟨r, hr⟩ := walkStep_stall_exit ctx s2 hp2 (by omega)
      rw [show runWalk ctx 1 s2 =
        (match walkStep ctx s2 with
         | .inl r => Sum.inl r
         | .inr s3 => runWalk ctx 0 s3) from runWalk_front ctx 0 s2]
      rw [hr]
      rfl

/-- C6: when the rendered card count eventually stops growing the walk
terminates; the walk exits as soon as the accepted-record count reaches
the cap; the stall counter is a function of the card counts alone
(incremented exactly when the count did not grow, reset otherwise —
rejected or filtered records never touch it); and the third consecutive
stall exits the loop. -/
theorem spec_C6 (ctx : WalkCtx) (T : Nat)
    (H : ∀ t, T ≤ t → (ctx.feed t).length = (ctx.feed T).length) :
    (∃ n, (runWalk ctx n initWalk).isLeft = true)
    ∧ (∀ s, ctx.maxResults ≤ s.businesses.length →
        walkStep ctx s = .inl s.businesses)
    ∧ (∀ s s1, walkStep ctx s = .inr s1 →
        ((ctx.feed s.t).length = s.previousCount →
          s1.noNewResultsCount = s.noNewResultsCount + 1)
        ∧ ((ctx.feed s.t).length ≠ s.previousCount → s1.noNewResultsCount = 0))
    ∧ (∀ s, (ctx.feed s.t).length = s.previousCount → 2 ≤ s.noNewResultsCount →
        ∃ r, walkStep ctx s = .inl r) := by
  refine ⟨?_, ?_, ?_, walkStep_stall_exit ctx⟩
  · cases hrw : runWalk ctx (T + 1) initWalk with
    | inl r => exact ⟨T + 1, by rw [hrw]; rfl⟩
    | inr s =>
      obtain ⟨ht, hprev⟩ := runWalk_state ctx (T + 1) initWalk s hrw
      have ht0 : s.t = T + 1 := by simpa [initWalk] using ht
      have hprev2 : s.previousCount = (ctx.feed T).length := by
        have := hprev (by omega)
        simpa [initWalk] using this
      have hp : ∀ t, s.t ≤ t → (ctx.feed t).length = s.previousCount := by
        intro t htt
        rw [hprev2]
        exact H t (by omega)
      refine ⟨(T + 1) + 3, ?_⟩
      rw [runWalk_add ctx (T + 1) 3 initWalk, hrw]
      exact runWalk3_left ctx s hp
  · intro s h
    simp [walkStep, h]
  · intro s s1 h
    obtain ⟨_, _, hc⟩ := walkStep_inr_fields ctx s s1 h
    constructor
    · intro he
      rw [hc, if_pos he]
    · intro he
      rw [hc, if_neg he]

/-- A walk context over a feed that never renders a card. -/
def ctxEmpty : WalkCtx := ⟨noBl, fun _ => [], 5, noFilters⟩

/-- A loop state that has already reached the cap of `ctxEmpty`. -/
def fullState : WalkState :=
  ⟨[emptyBiz, emptyBiz, emptyBiz, emptyBiz, emptyBiz], [], 0, 0, 0⟩

/-- A loop state two stalls deep over the empty feed. -/
def stallState : WalkState := ⟨[], [], 0, 2, 0⟩

/-- Witness for C6 over the never-growing empty feed: the walk
terminates, a full state exits immediately with its accumulated records,
the first iteration from the initial state increments the stall counter,
and a state two stalls deep exits on its next iteration. -/
theorem spec_C6_witness :
    (∃ n, (runWalk ctxEmpty n initWalk).isLeft = true)
    ∧ walkStep ctxEmpty fullState = .inl fullState.businesses
    ∧ ((⟨[], [], 0, 1, 1⟩ : WalkState).noNewResultsCount =
        initWalk.noNewResultsCount + 1)
    ∧ (∃ r, walkStep ctxEmpty stallState = .inl r) :=
  ⟨(spec_C6 ctxEmpty 0 (fun _ _ => rfl)).1,
   (spec_C6 ctxEmpty 0 (fun _ _ => rfl)).2.1 fullState (by decide),
   ((spec_C6 ctxEmpty 0 (fun _ _ => rfl)).2.2.1 initWalk ⟨[], [], 0, 1, 1⟩
      (by decide)).1 (by decide),
   (spec_C6 ctxEmpty 0 (fun _ _ => rfl)).2.2.2 stallState (by decide) (by decide)⟩
